import Mathlib

/-!
Verification of the wgmesh decentralized mesh-VPN control plane.

This file gives a shallow embedding of the core data model and operations of
the wgmesh repository and proves the specification's testable properties
against it.  Machine integers are modelled as Nat/Int; Go durations are
modelled in whole seconds; cryptographic primitives (AES-256-GCM, SHA-256,
HKDF-SHA-256) are modelled symbolically: a ciphertext records the key it was
sealed under together with the sealed plaintext, so that authenticated
decryption succeeds exactly under the sealing key, and hash/KDF outputs are
supplied by an oracle parameter.  JSON marshalling of in-memory records is
modelled as the identity.
-/

namespace Wgmesh

/-! ## Constants (pkg/crypto/envelope.go, daemon peer store, daemon loop)

Durations are in seconds: MaxMessageAge = 10 min, PeerDeadTimeout = 5 min,
PeerRemoveTimeout = 10 min. -/

def NonceSize : Nat := 12

def MaxMessageAge : Int := 600

def ProtocolVersion : String := "wgmesh-v1"

def MessageTypeHello : String := "HELLO"

def MessageTypeReply : String := "REPLY"

def MessageTypeAnnounce : String := "ANNOUNCE"

def PeerDeadTimeout : Int := 300

def PeerRemoveTimeout : Int := 600

def DefaultWGPort : Nat := 51820

/-! ## Envelope model (pkg/crypto/envelope.go) -/

/-- KnownPeer: a peer this node knows about, for transitive discovery. -/
structure KnownPeer where
  wgPubKey : String
  meshIP : String
  wgEndpoint : String
deriving DecidableEq

/-- PeerAnnouncement: the encrypted message format for peer discovery.
Timestamp is Unix seconds. -/
structure PeerAnnouncement where
  protocol : String
  wgPubKey : String
  meshIP : String
  wgEndpoint : String
  routableNetworks : List String
  timestamp : Int
  knownPeers : List KnownPeer
deriving DecidableEq

/-- Symbolic AES-256-GCM ciphertext: gcm.Seal binds the ciphertext to the key
and the plaintext; gcm.Open authenticates, so it recovers the plaintext
exactly when opened with the sealing key and fails otherwise. -/
structure GCMCiphertext where
  key : List Nat
  plaintext : PeerAnnouncement
deriving DecidableEq

/-- Envelope wraps encrypted messages with a nonce for transmission. -/
structure Envelope where
  messageType : String
  nonce : List Nat
  ciphertext : GCMCiphertext
deriving DecidableEq

/-- Model of the random 12-byte nonce drawn in SealEnvelope: the seed stands
for the randomness source; the nonce always has length NonceSize. -/
def nonceBytes (seed : Nat) : List Nat :=
  (List.range NonceSize).map (fun i => seed / 256 ^ i % 256)

/-- SealEnvelope encrypts a message using AES-256-GCM with the gossip key
(envelope.go lines 48-85).  JSON marshalling is the identity in the model;
the random nonce is supplied through the seed parameter. -/
def SealEnvelope (messageType : String) (payload : PeerAnnouncement)
    (gossipKey : List Nat) (nonceSeed : Nat) : Envelope :=
  { messageType := messageType
    nonce := nonceBytes nonceSeed
    ciphertext := { key := gossipKey, plaintext := payload } }

/-- OpenEnvelope decrypts a message using AES-256-GCM with the gossip key
(envelope.go lines 88-138), checking in source order: nonce size, GCM
authentication, protocol version, message age, future timestamp.  The two
time.Now() calls of the source are modelled by the single instant `now`. -/
def OpenEnvelope (env : Envelope) (gossipKey : List Nat) (now : Int) :
    Except String (Envelope × PeerAnnouncement) :=
  if env.nonce.length ≠ NonceSize then
    Except.error "invalid nonce size"
  else if env.ciphertext.key ≠ gossipKey then
    Except.error "decryption failed (wrong key?)"
  else if env.ciphertext.plaintext.protocol ≠ ProtocolVersion then
    Except.error "unsupported protocol version"
  else if now - env.ciphertext.plaintext.timestamp > MaxMessageAge then
    Except.error "message too old"
  else if env.ciphertext.plaintext.timestamp > now + MaxMessageAge then
    Except.error "message timestamp in future"
  else
    Except.ok (env, env.ciphertext.plaintext)

/-- CreateAnnouncement builds a new peer announcement (envelope.go 141-151),
with `now` standing for time.Now().Unix(). -/
def CreateAnnouncement (wgPubKey meshIP wgEndpoint : String)
    (routableNetworks : List String) (knownPeers : List KnownPeer)
    (now : Int) : PeerAnnouncement :=
  { protocol := ProtocolVersion
    wgPubKey := wgPubKey
    meshIP := meshIP
    wgEndpoint := wgEndpoint
    routableNetworks := routableNetworks
    timestamp := now
    knownPeers := knownPeers }

/-! ## Peer store model (pkg/daemon peer store file)

The Go store is a map keyed by WG pubkey; it is modelled as a list of
entries, insertion at the tail.  `now` stands for the time.Now() taken
inside each mutating method. -/

/-- PeerInfo: a discovered mesh peer.  The latency pointer of the source is
not used by any claim and is omitted. -/
structure PeerInfo where
  wgPubKey : String
  meshIP : String
  endpoint : String
  routableNetworks : List String
  lastSeen : Int
  discoveredVia : List String
deriving DecidableEq

abbrev PeerStore := List PeerInfo

/-- Merge step of PeerStore.Update on an existing entry (source lines
321-344): a non-empty incoming value wins per mutable field, last_seen is
refreshed, and the discovery method is appended when absent. -/
def mergePeer (existing info : PeerInfo) (discoveryMethod : String)
    (now : Int) : PeerInfo :=
  { existing with
    endpoint := if info.endpoint ≠ "" then info.endpoint else existing.endpoint
    routableNetworks :=
      if info.routableNetworks.length > 0 then info.routableNetworks
      else existing.routableNetworks
    meshIP := if info.meshIP ≠ "" then info.meshIP else existing.meshIP
    lastSeen := now
    discoveredVia :=
      if existing.discoveredVia.contains discoveryMethod then
        existing.discoveredVia
      else existing.discoveredVia ++ [discoveryMethod] }

/-- Insert step of PeerStore.Update on a new peer (source lines 313-318):
the incoming record is stored with last_seen set to now and the discovery
method as its only tag. -/
def freshEntry (info : PeerInfo) (discoveryMethod : String) (now : Int) :
    PeerInfo :=
  { info with lastSeen := now, discoveredVia := [discoveryMethod] }

/-- PeerStore.Update: insert-or-merge keyed by wg_pubkey (source lines
308-345). -/
def Update (ps : PeerStore) (info : PeerInfo) (discoveryMethod : String)
    (now : Int) : PeerStore :=
  if ps.any (fun p => p.wgPubKey == info.wgPubKey) then
    ps.map (fun p =>
      if p.wgPubKey = info.wgPubKey then mergePeer p info discoveryMethod now
      else p)
  else
    ps ++ [freshEntry info discoveryMethod now]

/-- PeerStore.GetActive: peers seen within the dead timeout (source lines
376-389; the comparison is strict: now - last_seen < PeerDeadTimeout). -/
def GetActive (ps : PeerStore) (now : Int) : List PeerInfo :=
  ps.filter (fun p => decide (now - p.lastSeen < PeerDeadTimeout))

/-- PeerStore.CleanupStale: removes peers with now - last_seen >
PeerRemoveTimeout and returns the removed pubkeys (source lines 399-412).
The result is the remaining store together with the evicted keys. -/
def CleanupStale (ps : PeerStore) (now : Int) : PeerStore × List String :=
  ((ps.filter (fun p => !decide (now - p.lastSeen > PeerRemoveTimeout))),
   (ps.filter (fun p => decide (now - p.lastSeen > PeerRemoveTimeout))).map
     (fun p => p.wgPubKey))

/-- Repeated updates: fold Update over a list of discovery methods with the
same PeerInfo and the same clock. -/
def updateMany (ps : PeerStore) (info : PeerInfo) (methods : List String)
    (now : Int) : PeerStore :=
  methods.foldl (fun s m => Update s info m now) ps

/-- Every field of a peer except the discovery tags. -/
def peerFields (p : PeerInfo) :
    String × String × String × List String × Int :=
  (p.wgPubKey, p.meshIP, p.endpoint, p.routableNetworks, p.lastSeen)

/-- Per-entry non-tag fields of a store, in store order. -/
def storeFields (ps : PeerStore) :
    List (String × String × String × List String × Int) :=
  ps.map peerFields

/-- Per-entry discovery-tag sets of a store, in store order. -/
def storeTagSets (ps : PeerStore) : List (Finset String) :=
  ps.map (fun p => p.discoveredVia.toFinset)

/-- Store equality modulo the set-union of discovery tags: all other fields
agree entrywise and the tag lists agree as sets. -/
def storeEquiv (s1 s2 : PeerStore) : Prop :=
  storeFields s1 = storeFields s2 ∧ storeTagSets s1 = storeTagSets s2

/-! ## Collision detection and resolution (daemon collision file, part_011) -/

/-- CollisionInfo: a mesh IP collision between two peers. -/
structure CollisionInfo where
  meshIP : String
  peer1 : PeerInfo
  peer2 : PeerInfo
deriving DecidableEq

/-- Loop body of PeerStore.DetectCollisions (source lines 21-47): walk the
peers, remembering the first holder of each mesh IP and emitting a collision
for every later holder with a different pubkey. -/
def detectCollisionsAux : List PeerInfo → List (String × PeerInfo) →
    List CollisionInfo → List CollisionInfo
  | [], _, acc => acc
  | p :: rest, ipMap, acc =>
    if p.meshIP = "" then detectCollisionsAux rest ipMap acc
    else
      match ipMap.lookup p.meshIP with
      | some existing =>
        if existing.wgPubKey ≠ p.wgPubKey then
          detectCollisionsAux rest ipMap
            (acc ++ [{ meshIP := p.meshIP, peer1 := existing, peer2 := p }])
        else detectCollisionsAux rest ipMap acc
      | none => detectCollisionsAux rest (ipMap ++ [(p.meshIP, p)]) acc

/-- PeerStore.DetectCollisions: pairs of peers sharing a mesh IP with
different pubkeys. -/
def DetectCollisions (ps : PeerStore) : List CollisionInfo :=
  detectCollisionsAux ps [] []

/-- Lexicographic strictly-less on character lists, the order used by Go's
strings.Compare (byte-wise; WG pubkeys are ASCII base64, where byte order
and character order agree). -/
def lexLess : List Char → List Char → Bool
  | [], [] => false
  | [], _ :: _ => true
  | _ :: _, [] => false
  | a :: as, b :: bs =>
    if a.toNat < b.toNat then true
    else if b.toNat < a.toNat then false
    else lexLess as bs

/-- strings.Compare(s1, s2) < 0. -/
def stringLess (s1 s2 : String) : Bool :=
  lexLess s1.data s2.data

/-- DeterministicWinner (source lines 50-55): the peer with the
lexicographically lower pubkey wins; the result is (winner, loser). -/
def DeterministicWinner (peer1 peer2 : PeerInfo) : PeerInfo × PeerInfo :=
  if stringLess peer1.wgPubKey peer2.wgPubKey then (peer1, peer2)
  else (peer2, peer1)

/-- Big-endian 16-bit integer from the first two bytes of a byte list
(binary.BigEndian.Uint16); the mod 256 records that the entries stand for
bytes. -/
def beUint16 (bs : List Nat) : Nat :=
  bs.headD 0 % 256 * 256 + bs.tail.headD 0 % 256

/-- DeriveMeshIPWithNonce (source lines 66-83).  The sha parameter is an
oracle standing for SHA-256: it maps the input string to the hash bytes. -/
def DeriveMeshIPWithNonce (sha : String → List Nat) (meshSubnet : List Nat)
    (wgPubKey secret : String) (nonce : Nat) : String :=
  let input := wgPubKey ++ secret ++ "|nonce=" ++ toString nonce
  let suffix0 := beUint16 (sha input)
  let suffix :=
    if suffix0 = 0 then 1 else if suffix0 = 65535 then 65534 else suffix0
  "10." ++ toString (meshSubnet.headD 0) ++ "." ++
    toString (suffix >>> 8 &&& 255) ++ "." ++ toString (suffix &&& 255)

/-- ResolveCollision (source lines 58-63): re-derive the loser's IP with
nonce 1. -/
def ResolveCollision (sha : String → List Nat) (collision : CollisionInfo)
    (meshSubnet : List Nat) (secret : String) : String :=
  let loser := (DeterministicWinner collision.peer1 collision.peer2).2
  DeriveMeshIPWithNonce sha meshSubnet loser.wgPubKey secret 1

/-- LocalNode: the local WireGuard node. -/
structure LocalNode where
  wgPubKey : String
  wgPrivateKey : String
  meshIP : String
  wgEndpoint : String
  routableNetworks : List String
deriving DecidableEq

/-- Loop body of Daemon.CheckAndResolveCollisions (source lines 92-112):
when the local node is the loser, its mesh IP is re-derived by the call
DeriveMeshIPWithNonce(..., 1) of line 99; for a remote loser the source
only logs the expected IP and changes no state.  The Nat list accumulates
the nonce argument passed to DeriveMeshIPWithNonce at each local
re-derivation, observing line 99. -/
def resolveStep (sha : String → List Nat) (meshSubnet : List Nat)
    (secret : String) (acc : LocalNode × List Nat)
    (collision : CollisionInfo) : LocalNode × List Nat :=
  let ln := acc.1
  let loser := (DeterministicWinner collision.peer1 collision.peer2).2
  if loser.wgPubKey = ln.wgPubKey then
    ({ ln with
        meshIP := DeriveMeshIPWithNonce sha meshSubnet ln.wgPubKey secret 1 },
     acc.2 ++ [1])
  else
    (ln, acc.2)

/-- Daemon.CheckAndResolveCollisions (source lines 86-113), returning the
updated local node together with the nonces used for local
re-derivations. -/
def CheckAndResolveCollisions (sha : String → List Nat)
    (meshSubnet : List Nat) (secret : String) (localNode : LocalNode)
    (ps : PeerStore) : LocalNode × List Nat :=
  (DetectCollisions ps).foldl (resolveStep sha meshSubnet secret)
    (localNode, [])

/-! ## Reconciler (daemon loop, part_011 lines 365-390)

reconcile is modelled as a pure function from the store to the store after
cleanup together with the WGControl calls it issues: the peers passed to
set_peer and the pubkeys passed to remove_peer. -/

/-- Daemon.reconcile: read the active set; if it is empty return at once;
otherwise configure every active peer other than ourselves, then run
CleanupStale and withdraw each evicted pubkey. -/
def reconcile (localPubKey : String) (ps : PeerStore) (now : Int) :
    PeerStore × List PeerInfo × List String :=
  let peers := GetActive ps now
  if peers.length = 0 then (ps, [], [])
  else
    let configured := peers.filter (fun p => decide (p.wgPubKey ≠ localPubKey))
    let cleaned := CleanupStale ps now
    (cleaned.1, configured, cleaned.2)

/-! ## Endpoint resolution (discovery, part_007 and part_009)

net.SplitHostPort and net.JoinHostPort are modelled on the forms the
discovery code feeds them: split at the last colon, with square brackets
around hosts that themselves contain colons. -/

/-- Index of the last colon of a character list, if any. -/
def lastColonIdx : List Char → Option Nat
  | [] => none
  | c :: rest =>
    match lastColonIdx rest with
    | some i => some (i + 1)
    | none => if c = ':' then some 0 else none

/-- Model of net.SplitHostPort: the port is everything after the last
colon; a bracketed host is unwrapped; an unbracketed host may not contain
a colon or brackets. -/
def splitHostPort (s : String) : Option (String × String) :=
  match lastColonIdx s.data with
  | none => none
  | some i =>
    if (s.data.take i).head? = some '[' then
      if (s.data.take i).getLast? = some ']' then
        some (String.mk (s.data.take i).tail.dropLast,
          String.mk (s.data.drop (i + 1)))
      else none
    else if (s.data.take i).contains ':' || (s.data.take i).contains '[' ||
        (s.data.take i).contains ']' then none
    else some (String.mk (s.data.take i), String.mk (s.data.drop (i + 1)))

/-- Model of net.JoinHostPort: brackets are added around hosts containing a
colon or a percent sign. -/
def joinHostPort (host port : String) : String :=
  if host.data.contains ':' || host.data.contains '%' then
    "[" ++ host ++ "]:" ++ port
  else host ++ ":" ++ port

/-- Shared fallback of both resolvers when the advertised endpoint does not
parse: the sender's IP with the default WireGuard port, else empty.  The
sender argument is some ip exactly when the source's sender pointer and its
IP are both non-nil. -/
def senderFallback (senderIP : Option String) : String :=
  match senderIP with
  | some ip => joinHostPort ip (toString DefaultWGPort)
  | none => ""

/-- resolvePeerEndpoint (part_009 lines 310-328): rewrite a wildcard or
empty advertised host to the observed sender IP, keeping the advertised
port. -/
def resolvePeerEndpoint (advertised : String) (senderIP : Option String) :
    String :=
  match splitHostPort advertised with
  | some (host, port) =>
    let resolvedHost :=
      if host = "" ∨ host = "0.0.0.0" ∨ host = "::" then
        match senderIP with
        | some ip => ip
        | none => host
      else host
    if resolvedHost ≠ "" then joinHostPort resolvedHost port
    else senderFallback senderIP
  | none => senderFallback senderIP

/-- resolveEndpoint (part_007 lines 642-655): the LAN variant of the same
rewrite; a parseable non-wildcard endpoint is returned verbatim. -/
def resolveEndpoint (advertised : String) (senderIP : Option String) :
    String :=
  match splitHostPort advertised with
  | some (host, port) =>
    if host = "" ∨ host = "0.0.0.0" ∨ host = "::" then
      match senderIP with
      | some ip => joinHostPort ip port
      | none => advertised
    else advertised
  | none => senderFallback senderIP

/-! ## Peer exchange message handling (discovery, part_009) -/

def DHTMethod : String := "dht"

/-- normalizeKnownPeerEndpoint (part_009 lines 330-338). -/
def normalizeKnownPeerEndpoint (endpoint : String) : String :=
  if endpoint = "" then ""
  else
    match splitHostPort endpoint with
    | some _ => endpoint
    | none => ""

/-- updateTransitivePeers (part_009 lines 277-290): merge each known peer
other than ourselves with the transitive discovery tag. -/
def updateTransitivePeers (localNode : LocalNode) (ps : PeerStore)
    (knownPeers : List KnownPeer) (now : Int) : PeerStore :=
  knownPeers.foldl
    (fun s kp =>
      if kp.wgPubKey = localNode.wgPubKey then s
      else
        Update s
          { wgPubKey := kp.wgPubKey
            meshIP := kp.meshIP
            endpoint := normalizeKnownPeerEndpoint kp.wgEndpoint
            routableNetworks := []
            lastSeen := 0
            discoveredVia := [] }
          (DHTMethod ++ "-transitive") now)
    ps

/-- handleHello (part_009 lines 164-187): update the store with the sender,
merge its known peers, and send a REPLY.  The Bool result records whether a
response was sent to the sender. -/
def handleHello (localNode : LocalNode) (ps : PeerStore)
    (announcement : PeerAnnouncement) (senderIP : Option String)
    (now : Int) : PeerStore × Bool :=
  if announcement.wgPubKey = localNode.wgPubKey then (ps, false)
  else
    let peerInfo : PeerInfo :=
      { wgPubKey := announcement.wgPubKey
        meshIP := announcement.meshIP
        endpoint := resolvePeerEndpoint announcement.wgEndpoint senderIP
        routableNetworks := announcement.routableNetworks
        lastSeen := 0
        discoveredVia := [] }
    let ps1 := Update ps peerInfo DHTMethod now
    let ps2 := updateTransitivePeers localNode ps1 announcement.knownPeers now
    (ps2, true)

/-- handleReply (part_009 lines 189-210): merge known peers; deliver the
sender's info to a pending exchange if one exists, otherwise merge it as an
unsolicited reply.  hasPending models a registered pending-reply channel
for the sender address. -/
def handleReply (localNode : LocalNode) (ps : PeerStore)
    (reply : PeerAnnouncement) (senderIP : Option String)
    (hasPending : Bool) (now : Int) : PeerStore × Bool :=
  let peerInfo : PeerInfo :=
    { wgPubKey := reply.wgPubKey
      meshIP := reply.meshIP
      endpoint := resolvePeerEndpoint reply.wgEndpoint senderIP
      routableNetworks := reply.routableNetworks
      lastSeen := 0
      discoveredVia := [] }
  let ps1 := updateTransitivePeers localNode ps reply.knownPeers now
  if hasPending then (ps1, false)
  else (Update ps1 peerInfo DHTMethod now, false)

/-- PeerExchange.handleMessage (part_009 lines 142-161): open the envelope
and dispatch on the message type; HELLO and REPLY are handled, every other
type is only logged.  The Bool result records whether a response was sent
back to the sender. -/
def handleMessage (localNode : LocalNode) (ps : PeerStore)
    (gossipKey : List Nat) (data : Envelope) (senderIP : Option String)
    (hasPending : Bool) (now : Int) : PeerStore × Bool :=
  match OpenEnvelope data gossipKey now with
  | Except.error _ => (ps, false)
  | Except.ok (envelope, announcement) =>
    if envelope.messageType = MessageTypeHello then
      handleHello localNode ps announcement senderIP now
    else if envelope.messageType = MessageTypeReply then
      handleReply localNode ps announcement senderIP hasPending now
    else (ps, false)

/-! ## Key derivation (pkg/crypto/password.go)

SHA-256 and HKDF-SHA-256 are oracles: sha maps an input string to its hash
bytes, hkdf maps (secret, salt, length) to the derived bytes. -/

def MinSecretLength : Nat := 16

/-- DerivedKeys: all keys and parameters derived from a shared secret. -/
structure DerivedKeys where
  networkID : List Nat
  gossipKey : List Nat
  meshSubnet : List Nat
  multicastID : List Nat
  psk : List Nat
  gossipPort : Nat
deriving DecidableEq

/-- DeriveKeys (password.go lines 68-107): none models the InvalidSecret
error for secrets under 16 bytes. -/
def DeriveKeys (sha : String → List Nat)
    (hkdf : String → String → Nat → List Nat) (secret : String) :
    Option DerivedKeys :=
  if secret.length < MinSecretLength then none
  else
    some
      { networkID := (sha secret).take 20
        gossipKey := hkdf secret "wgmesh-gossip-v1" 32
        meshSubnet := hkdf secret "wgmesh-subnet-v1" 2
        multicastID := hkdf secret "wgmesh-mcast-v1" 4
        psk := hkdf secret "wgmesh-wg-psk-v1" 32
        gossipPort :=
          51821 + beUint16 (hkdf secret "wgmesh-gossip-port-v1" 2) % 1000 }

/-! ## Concrete sample data used by witnesses and counterexamples -/

def sampleKey : List Nat := List.replicate 32 7

def sampleAnnouncement : PeerAnnouncement :=
  { protocol := ProtocolVersion
    wgPubKey := "KEYA"
    meshIP := "10.9.0.1"
    wgEndpoint := "1.2.3.4:51820"
    routableNetworks := []
    timestamp := 100
    knownPeers := [] }

def sampleEnvelope : Envelope :=
  SealEnvelope MessageTypeAnnounce sampleAnnouncement sampleKey 5

def stalePeer : PeerInfo :=
  { wgPubKey := "STALE"
    meshIP := "10.9.0.2"
    endpoint := "5.6.7.8:51820"
    routableNetworks := []
    lastSeen := 0
    discoveredVia := ["lan"] }

def freshPeer : PeerInfo :=
  { wgPubKey := "FRESH"
    meshIP := "10.9.0.3"
    endpoint := "5.6.7.9:51820"
    routableNetworks := []
    lastSeen := 650
    discoveredVia := ["dht"] }

def localNode0 : LocalNode :=
  { wgPubKey := "LOCAL"
    wgPrivateKey := "PRIV"
    meshIP := "10.9.0.9"
    wgEndpoint := "0.0.0.0:51820"
    routableNetworks := [] }

def sampleSha : String → List Nat := fun _ => [3, 9]

def collLocal : LocalNode :=
  { wgPubKey := "B"
    wgPrivateKey := "PRIV"
    meshIP := "10.0.0.5"
    wgEndpoint := "0.0.0.0:51820"
    routableNetworks := [] }

def collPeerA : PeerInfo :=
  { wgPubKey := "A"
    meshIP := "10.0.0.5"
    endpoint := "4.4.4.4:51820"
    routableNetworks := []
    lastSeen := 0
    discoveredVia := ["dht"] }

def collPeerB : PeerInfo :=
  { wgPubKey := "B"
    meshIP := "10.0.0.5"
    endpoint := "5.5.5.5:51820"
    routableNetworks := []
    lastSeen := 0
    discoveredVia := ["dht"] }

def collStore1 : PeerStore := [collPeerA, collPeerB]

def collStore2 : PeerStore :=
  [{ collPeerA with meshIP := "10.0.3.9" },
   { collPeerB with meshIP := "10.0.3.9" }]

def infoW : PeerInfo :=
  { wgPubKey := "K"
    meshIP := "10.9.0.7"
    endpoint := ""
    routableNetworks := []
    lastSeen := 0
    discoveredVia := [] }

def entryW : PeerInfo :=
  { wgPubKey := "K"
    meshIP := "10.9.0.8"
    endpoint := "7.7.7.7:51820"
    routableNetworks := ["192.168.0.0/24"]
    lastSeen := 5
    discoveredVia := ["lan"] }

def senderAnnouncement : PeerAnnouncement :=
  { protocol := ProtocolVersion
    wgPubKey := "SENDER"
    meshIP := "10.9.0.4"
    wgEndpoint := "0.0.0.0:51821"
    routableNetworks := []
    timestamp := 100
    knownPeers := [] }

def announceEnvelope : Envelope :=
  SealEnvelope MessageTypeAnnounce senderAnnouncement sampleKey 9

/-! ## Theorems -/

/-- C1: OpenEnvelope rejects every envelope whose announcement timestamp
differs from now by more than 10 minutes in either direction, yielding an
error and no envelope or announcement; an envelope with a valid GCM tag
(key match and well-sized nonce), matching protocol tag, and timestamp
within 10 minutes of now is accepted. -/
theorem openEnvelope_freshness (env : Envelope) (gossipKey : List Nat)
    (now : Int) :
    ((now - env.ciphertext.plaintext.timestamp > MaxMessageAge ∨
      env.ciphertext.plaintext.timestamp - now > MaxMessageAge) →
      ∃ msg, OpenEnvelope env gossipKey now = Except.error msg) ∧
    (env.nonce.length = NonceSize → env.ciphertext.key = gossipKey →
      env.ciphertext.plaintext.protocol = ProtocolVersion →
      now - env.ciphertext.plaintext.timestamp ≤ MaxMessageAge →
      env.ciphertext.plaintext.timestamp - now ≤ MaxMessageAge →
      OpenEnvelope env gossipKey now =
        Except.ok (env, env.ciphertext.plaintext)) := by
  constructor
  · intro h
    unfold OpenEnvelope
    split_ifs with h1 h2 h3 h4 h5
    · exact ⟨_, rfl⟩
    · exact ⟨_, rfl⟩
    · exact ⟨_, rfl⟩
    · exact ⟨_, rfl⟩
    · exact ⟨_, rfl⟩
    · rcases h with h | h
      · exact absurd h h4
      · exact absurd (by omega : env.ciphertext.plaintext.timestamp >
          now + MaxMessageAge) h5
  · intro h1 h2 h3 h4 h5
    unfold OpenEnvelope
    split_ifs with g1 g2 g3 g4 g5
    · exact absurd h1 g1
    · exact absurd h2 g2
    · exact absurd h3 g3
    · exact absurd g4 (by omega)
    · exact absurd g5 (by omega)
    · rfl

/-- C1 witness: a concrete stale envelope (timestamp 100, opened at 1000)
is rejected, and the same envelope opened at time 100 is accepted. -/
theorem openEnvelope_freshness_witness :
    (∃ msg, OpenEnvelope sampleEnvelope sampleKey 1000 = Except.error msg) ∧
    OpenEnvelope sampleEnvelope sampleKey 100 =
      Except.ok (sampleEnvelope, sampleAnnouncement) :=
  ⟨(openEnvelope_freshness sampleEnvelope sampleKey 1000).1
      (Or.inl (by decide)),
   (openEnvelope_freshness sampleEnvelope sampleKey 100).2
      (by decide) rfl rfl (by decide) (by decide)⟩

/-- C10: seal/open round-trip.  For every message type, gossip key, nonce
seed, and announcement with protocol "wgmesh-v1" and timestamp within 10
minutes of the opening time, OpenEnvelope on the output of SealEnvelope
succeeds with the same message type and the sealed announcement. -/
theorem sealEnvelope_openEnvelope_roundtrip (messageType : String)
    (payload : PeerAnnouncement) (gossipKey : List Nat) (nonceSeed : Nat)
    (now : Int) (hproto : payload.protocol = ProtocolVersion)
    (hold : now - payload.timestamp ≤ MaxMessageAge)
    (hfut : payload.timestamp - now ≤ MaxMessageAge) :
    OpenEnvelope (SealEnvelope messageType payload gossipKey nonceSeed)
        gossipKey now =
      Except.ok (SealEnvelope messageType payload gossipKey nonceSeed,
        payload) ∧
    (SealEnvelope messageType payload gossipKey nonceSeed).messageType =
      messageType := by
  refine ⟨?_, rfl⟩
  have hnonce : (nonceBytes nonceSeed).length = NonceSize := by
    simp [nonceBytes]
  unfold OpenEnvelope SealEnvelope
  split_ifs with g1 g2 g3 g4 g5
  · exact absurd hnonce g1
  · exact absurd rfl g2
  · exact absurd hproto g3
  · exfalso; dsimp only at g4; omega
  · exfalso; dsimp only at g5; omega
  · rfl

/-- C10 witness: the round-trip at a concrete announcement, key, nonce seed
and time. -/
theorem sealEnvelope_openEnvelope_roundtrip_witness :
    OpenEnvelope (SealEnvelope MessageTypeHello sampleAnnouncement
        sampleKey 5) sampleKey 150 =
      Except.ok (SealEnvelope MessageTypeHello sampleAnnouncement
        sampleKey 5, sampleAnnouncement) ∧
    (SealEnvelope MessageTypeHello sampleAnnouncement sampleKey
        5).messageType = MessageTypeHello :=
  sealEnvelope_openEnvelope_roundtrip MessageTypeHello sampleAnnouncement
    sampleKey 5 150 rfl (by decide) (by decide)

/-- C9: for every secret of at least 16 bytes, derivation succeeds and the
gossip port equals 51821 plus the big-endian 16-bit integer of the two
HKDF bytes for salt "wgmesh-gossip-port-v1" taken modulo 1000, hence lies
in [51821, 52820]. -/
theorem deriveKeys_gossipPort (sha : String → List Nat)
    (hkdf : String → String → Nat → List Nat) (secret : String)
    (hlen : MinSecretLength ≤ secret.length) :
    ∃ keys, DeriveKeys sha hkdf secret = some keys ∧
      keys.gossipPort =
        51821 + beUint16 (hkdf secret "wgmesh-gossip-port-v1" 2) % 1000 ∧
      51821 ≤ keys.gossipPort ∧ keys.gossipPort ≤ 52820 := by
  unfold DeriveKeys
  rw [if_neg (by omega)]
  have h := Nat.mod_lt (beUint16 (hkdf secret "wgmesh-gossip-port-v1" 2))
    (show 0 < 1000 by norm_num)
  exact ⟨_, rfl, rfl, by dsimp only; omega, by dsimp only; omega⟩

/-- C9 witness: a concrete 16-character secret and a concrete HKDF oracle. -/
theorem deriveKeys_gossipPort_witness :
    ∃ keys, DeriveKeys (fun _ => []) (fun _ _ n => List.replicate n 0)
        "0123456789abcdef" = some keys ∧
      keys.gossipPort = 51821 + beUint16 (List.replicate 2 0) % 1000 ∧
      51821 ≤ keys.gossipPort ∧ keys.gossipPort ≤ 52820 :=
  deriveKeys_gossipPort (fun _ => []) (fun _ _ n => List.replicate n 0)
    "0123456789abcdef" (by decide)

theorem mem_cleanupStale_fst (ps : PeerStore) (now : Int) (p : PeerInfo) :
    p ∈ (CleanupStale ps now).1 ↔
      p ∈ ps ∧ ¬ now - p.lastSeen > PeerRemoveTimeout := by
  simp [CleanupStale, List.mem_filter]

theorem mem_cleanupStale_snd (ps : PeerStore) (now : Int) (k : String) :
    k ∈ (CleanupStale ps now).2 ↔
      ∃ p ∈ ps, now - p.lastSeen > PeerRemoveTimeout ∧ p.wgPubKey = k := by
  simp only [CleanupStale, List.mem_map, List.mem_filter,
    decide_eq_true_eq]
  constructor
  · rintro ⟨p, ⟨hp, hold⟩, hk⟩
    exact ⟨p, hp, hold, hk⟩
  · rintro ⟨p, hp, hold, hk⟩
    exact ⟨p, ⟨hp, hold⟩, hk⟩

theorem mem_getActive (ps : PeerStore) (now : Int) (p : PeerInfo) :
    p ∈ GetActive ps now ↔ p ∈ ps ∧ now - p.lastSeen < PeerDeadTimeout := by
  simp [GetActive, List.mem_filter]

/-- C2: CleanupStale keeps exactly the entries not older than the remove
window, returns exactly the pubkeys of entries with last_seen more than 10
minutes before now, and GetActive returns exactly the entries with
last_seen within 5 minutes of now (strictly inside the window, as the
source compares with <). -/
theorem cleanupStale_getActive_exact (ps : PeerStore) (now : Int) :
    (∀ p : PeerInfo, p ∈ (CleanupStale ps now).1 ↔
      p ∈ ps ∧ ¬ now - p.lastSeen > PeerRemoveTimeout) ∧
    (∀ k : String, k ∈ (CleanupStale ps now).2 ↔
      ∃ p ∈ ps, now - p.lastSeen > PeerRemoveTimeout ∧ p.wgPubKey = k) ∧
    (∀ p : PeerInfo, p ∈ GetActive ps now ↔
      p ∈ ps ∧ now - p.lastSeen < PeerDeadTimeout) :=
  ⟨mem_cleanupStale_fst ps now, mem_cleanupStale_snd ps now,
   mem_getActive ps now⟩

/-- C2 witness: on a concrete store at time 700, the stale entry is evicted
with its pubkey reported, and the fresh entry is active. -/
theorem cleanupStale_getActive_exact_witness :
    "STALE" ∈ (CleanupStale [stalePeer, freshPeer] 700).2 ∧
    freshPeer ∈ GetActive [stalePeer, freshPeer] 700 :=
  ⟨((cleanupStale_getActive_exact [stalePeer, freshPeer] 700).2.1
      "STALE").mpr ⟨stalePeer, by simp, by decide, rfl⟩,
   ((cleanupStale_getActive_exact [stalePeer, freshPeer] 700).2.2
      freshPeer).mpr ⟨by simp, by decide⟩⟩

/-- C7 counterexample: at time 700 a store holding only a stale peer
(last_seen 700 s ago) has no active peers, so reconcile returns at once
without evicting it, although CleanupStale would have returned its pubkey;
the claim that cleanup runs on every tick regardless of the active count is
false. -/
theorem reconcile_skips_cleanup_counterexample :
    GetActive [stalePeer] 700 = [] ∧
    reconcile "LOCAL" [stalePeer] 700 = ([stalePeer], [], []) ∧
    (CleanupStale [stalePeer] 700).2 = ["STALE"] := by decide

/-- C7 amended: on a tick where the store has at least one active peer,
reconcile runs CleanupStale and issues a remove_peer call for exactly the
pubkeys of entries older than the remove window; on a tick with no active
peers it returns immediately and performs no cleanup. -/
theorem reconcile_cleanup_amended (localPubKey : String) (ps : PeerStore)
    (now : Int) :
    (GetActive ps now = [] → reconcile localPubKey ps now = (ps, [], [])) ∧
    (GetActive ps now ≠ [] →
      (reconcile localPubKey ps now).1 = (CleanupStale ps now).1 ∧
      ∀ k, k ∈ (reconcile localPubKey ps now).2.2 ↔
        ∃ p ∈ ps, now - p.lastSeen > PeerRemoveTimeout ∧ p.wgPubKey = k) := by
  constructor
  · intro h
    unfold reconcile
    rw [h]
    rfl
  · intro h
    have hlen : (GetActive ps now).length ≠ 0 := by
      simpa [List.length_eq_zero] using h
    unfold reconcile
    rw [if_neg hlen]
    exact ⟨rfl, fun k => mem_cleanupStale_snd ps now k⟩

/-- C7 witness: the empty-active-set arm at a store with one stale peer,
and the cleanup arm at a store holding a fresh and a stale peer. -/
theorem reconcile_cleanup_amended_witness :
    reconcile "LOCAL" [stalePeer] 700 = ([stalePeer], [], []) ∧
    "STALE" ∈ (reconcile "LOCAL" [stalePeer, freshPeer] 700).2.2 :=
  ⟨(reconcile_cleanup_amended "LOCAL" [stalePeer] 700).1 (by decide),
   (((reconcile_cleanup_amended "LOCAL" [stalePeer, freshPeer] 700).2
      (by decide)).2 "STALE").mpr ⟨stalePeer, by simp, by decide, rfl⟩⟩

theorem resolveStep_loser (sha : String → List Nat) (ms : List Nat)
    (secret : String) (acc : LocalNode × List Nat) (c : CollisionInfo)
    (h : (DeterministicWinner c.peer1 c.peer2).2.wgPubKey = acc.1.wgPubKey) :
    resolveStep sha ms secret acc c =
      ({ acc.1 with
          meshIP := DeriveMeshIPWithNonce sha ms acc.1.wgPubKey secret 1 },
       acc.2 ++ [1]) := by
  simp [resolveStep, h]

theorem resolveStep_other (sha : String → List Nat) (ms : List Nat)
    (secret : String) (acc : LocalNode × List Nat) (c : CollisionInfo)
    (h : ¬ (DeterministicWinner c.peer1 c.peer2).2.wgPubKey =
      acc.1.wgPubKey) :
    resolveStep sha ms secret acc c = acc := by
  simp [resolveStep, h]

theorem checkAndResolve_foldl_invariant (sha : String → List Nat)
    (ms : List Nat) (secret : String) :
    ∀ (cs : List CollisionInfo) (ln : LocalNode) (ns : List Nat),
      (cs.foldl (resolveStep sha ms secret) (ln, ns)).1.wgPubKey =
        ln.wgPubKey ∧
      (∀ n ∈ (cs.foldl (resolveStep sha ms secret) (ln, ns)).2,
        n ∈ ns ∨ n = 1) ∧
      ((cs.foldl (resolveStep sha ms secret) (ln, ns)).1.meshIP =
        ln.meshIP ∨
       (cs.foldl (resolveStep sha ms secret) (ln, ns)).1.meshIP =
        DeriveMeshIPWithNonce sha ms ln.wgPubKey secret 1) := by
  intro cs
  induction cs with
  | nil =>
    intro ln ns
    exact ⟨rfl, fun n hn => Or.inl hn, Or.inl rfl⟩
  | cons c rest ih =>
    intro ln ns
    rw [List.foldl_cons]
    by_cases h : (DeterministicWinner c.peer1 c.peer2).2.wgPubKey =
      (ln, ns).1.wgPubKey
    · rw [resolveStep_loser sha ms secret (ln, ns) c h]
      obtain ⟨ih1, ih2, ih3⟩ := ih
        { ln with
            meshIP := DeriveMeshIPWithNonce sha ms ln.wgPubKey secret 1 }
        (ns ++ [1])
      refine ⟨ih1, ?_, ?_⟩
      · intro n hn
        rcases ih2 n hn with hmem | h1
        · rcases List.mem_append.mp hmem with hns | hone
          · exact Or.inl hns
          · exact Or.inr (List.mem_singleton.mp hone)
        · exact Or.inr h1
      · rcases ih3 with h3 | h3
        · exact Or.inr h3
        · exact Or.inr h3
    · rw [resolveStep_other sha ms secret (ln, ns) c h]
      exact ih ln ns

theorem lexLess_asymm :
    ∀ as bs : List Char, lexLess as bs = true → lexLess bs as = false := by
  intro as
  induction as with
  | nil =>
    intro bs h
    cases bs with
    | nil => simp [lexLess] at h
    | cons b bs => simp [lexLess]
  | cons a as ih =>
    intro bs h
    cases bs with
    | nil => simp [lexLess] at h
    | cons b bs =>
      by_cases hab : a.toNat < b.toNat
      · have hba : ¬ b.toNat < a.toNat := by omega
        simp [lexLess, hab, hba]
      · by_cases hba : b.toNat < a.toNat
        · simp [lexLess, hab, hba] at h
        · have htail : lexLess as bs = true := by
            simpa [lexLess, hab, hba] using h
          simp [lexLess, hab, hba, ih bs htail]

theorem lexLess_trichotomy :
    ∀ as bs : List Char, as ≠ bs →
      lexLess as bs = true ∨ lexLess bs as = true := by
  intro as
  induction as with
  | nil =>
    intro bs h
    cases bs with
    | nil => exact absurd rfl h
    | cons b bs => exact Or.inl (by simp [lexLess])
  | cons a as ih =>
    intro bs h
    cases bs with
    | nil => exact Or.inr (by simp [lexLess])
    | cons b bs =>
      by_cases hab : a.toNat < b.toNat
      · exact Or.inl (by simp [lexLess, hab])
      · by_cases hba : b.toNat < a.toNat
        · exact Or.inr (by simp [lexLess, hba])
        · have hnat : a.toNat = b.toNat := by omega
          have hchar : a = b := Char.eq_of_val_eq (UInt32.ext hnat)
          subst hchar
          have htail : as ≠ bs := by
            intro he
            exact h (by rw [he])
          rcases ih bs htail with h1 | h1
          · exact Or.inl (by simp [lexLess, hab, hba, h1])
          · exact Or.inr (by simp [lexLess, hab, hba, h1])

theorem stringLess_total (s1 s2 : String) (h : s1 ≠ s2) :
    stringLess s1 s2 = true ∨ stringLess s2 s1 = true := by
  have hd : s1.data ≠ s2.data := fun he => h (String.ext he)
  exact lexLess_trichotomy s1.data s2.data hd

/-- C4: for two peers sharing a mesh IP with different pubkeys, collision
resolution designates as winner the peer with the lexicographically smaller
wg_pubkey; the winner keeps its mesh IP (a local node that is not the loser
is left unchanged by CheckAndResolveCollisions) and only the loser's mesh
IP is re-derived (a local node that is the loser gets exactly its mesh IP
replaced by the nonce-1 re-derivation). -/
theorem deterministicWinner_resolution (p1 p2 : PeerInfo)
    (hne : p1.wgPubKey ≠ p2.wgPubKey) :
    stringLess (DeterministicWinner p1 p2).1.wgPubKey
      (DeterministicWinner p1 p2).2.wgPubKey = true ∧
    (stringLess p1.wgPubKey p2.wgPubKey = true →
      DeterministicWinner p1 p2 = (p1, p2)) ∧
    (stringLess p2.wgPubKey p1.wgPubKey = true →
      DeterministicWinner p1 p2 = (p2, p1)) ∧
    (∀ (sha : String → List Nat) (ms : List Nat) (secret : String)
      (localNode : LocalNode) (ps : PeerStore) (c : CollisionInfo),
      DetectCollisions ps = [c] →
      ((DeterministicWinner c.peer1 c.peer2).2.wgPubKey ≠
          localNode.wgPubKey →
        (CheckAndResolveCollisions sha ms secret localNode ps).1 =
          localNode) ∧
      ((DeterministicWinner c.peer1 c.peer2).2.wgPubKey =
          localNode.wgPubKey →
        (CheckAndResolveCollisions sha ms secret localNode ps).1 =
          { localNode with
              meshIP :=
                DeriveMeshIPWithNonce sha ms localNode.wgPubKey
                  secret 1 })) := by
  refine ⟨?_, ?_, ?_, ?_⟩
  · by_cases h : stringLess p1.wgPubKey p2.wgPubKey = true
    · simp [DeterministicWinner, h]
    · rcases stringLess_total p1.wgPubKey p2.wgPubKey hne with h1 | h1
      · exact absurd h1 h
      · simp [DeterministicWinner, h, h1]
  · intro h
    simp [DeterministicWinner, h]
  · intro h
    have h2 : stringLess p1.wgPubKey p2.wgPubKey = false :=
      lexLess_asymm p2.wgPubKey.data p1.wgPubKey.data h
    simp [DeterministicWinner, h2]
  · intro sha ms secret localNode ps c hdet
    constructor
    · intro h
      unfold CheckAndResolveCollisions
      rw [hdet, List.foldl_cons, List.foldl_nil,
        resolveStep_other sha ms secret (localNode, []) c h]
    · intro h
      unfold CheckAndResolveCollisions
      rw [hdet, List.foldl_cons, List.foldl_nil,
        resolveStep_loser sha ms secret (localNode, []) c h]

/-- C4 witness: a concrete collision of pubkeys "A" and "B": "A" wins, and
the daemon resolution leaves a winning local node untouched while a losing
local node gets the nonce-1 re-derived mesh IP. -/
theorem deterministicWinner_resolution_witness :
    stringLess (DeterministicWinner collPeerA collPeerB).1.wgPubKey
      (DeterministicWinner collPeerA collPeerB).2.wgPubKey = true ∧
    DeterministicWinner collPeerA collPeerB = (collPeerA, collPeerB) ∧
    (CheckAndResolveCollisions sampleSha [0] "s" collLocal
      collStore1).1 =
      { collLocal with
          meshIP :=
            DeriveMeshIPWithNonce sampleSha [0] collLocal.wgPubKey
              "s" 1 } :=
  ⟨(deterministicWinner_resolution collPeerA collPeerB (by decide)).1,
   (deterministicWinner_resolution collPeerA collPeerB (by decide)).2.1
     (by decide),
   (((deterministicWinner_resolution collPeerA collPeerB
       (by decide)).2.2.2 sampleSha [0] "s" collLocal collStore1
       { meshIP := "10.0.0.5", peer1 := collPeerA, peer2 := collPeerB }
       (by decide)).2 (by decide))⟩

/-- C5 counterexample: with the local node the loser of a collision, the
re-derivation of CheckAndResolveCollisions uses nonce 1; when the collision
persists at the re-derived IP, the next resolution uses nonce 1 again (not
a strictly larger one) and produces the same candidate IP, so the claimed
monotone nonce growth is false at this input. -/
theorem collision_nonce_counterexample :
    (CheckAndResolveCollisions sampleSha [0] "s" collLocal collStore1).2 =
      [1] ∧
    (CheckAndResolveCollisions sampleSha [0] "s"
      (CheckAndResolveCollisions sampleSha [0] "s" collLocal
        collStore1).1 collStore2).2 = [1] ∧
    (CheckAndResolveCollisions sampleSha [0] "s"
      (CheckAndResolveCollisions sampleSha [0] "s" collLocal
        collStore1).1 collStore2).1.meshIP =
      (CheckAndResolveCollisions sampleSha [0] "s" collLocal
        collStore1).1.meshIP := by decide

/-- C5 amended: every re-derivation performed by CheckAndResolveCollisions
uses the fixed nonce 1 (the source passes the literal 1), so the local mesh
IP after resolution is either unchanged or the single nonce-1 candidate;
repeated resolutions of a persisting collision cannot produce new candidate
IPs. -/
theorem collision_nonce_amended (sha : String → List Nat) (ms : List Nat)
    (secret : String) (localNode : LocalNode) (ps : PeerStore) :
    (∀ n ∈ (CheckAndResolveCollisions sha ms secret localNode ps).2,
      n = 1) ∧
    (CheckAndResolveCollisions sha ms secret localNode ps).1.wgPubKey =
      localNode.wgPubKey ∧
    ((CheckAndResolveCollisions sha ms secret localNode ps).1.meshIP =
      localNode.meshIP ∨
     (CheckAndResolveCollisions sha ms secret localNode ps).1.meshIP =
      DeriveMeshIPWithNonce sha ms localNode.wgPubKey secret 1) := by
  unfold CheckAndResolveCollisions
  obtain ⟨h1, h2, h3⟩ := checkAndResolve_foldl_invariant sha ms secret
    (DetectCollisions ps) localNode []
  refine ⟨fun n hn => ?_, h1, h3⟩
  rcases h2 n hn with hmem | hone
  · exact absurd hmem (List.not_mem_nil n)
  · exact hone

/-- C5 witness: the amended theorem applied at the concrete collision store,
where the single recorded nonce is 1. -/
theorem collision_nonce_amended_witness :
    (1 : Nat) ∈
      (CheckAndResolveCollisions sampleSha [0] "s" collLocal
        collStore1).2 ∧ (1 : Nat) = 1 :=
  ⟨by decide,
   (collision_nonce_amended sampleSha [0] "s" collLocal collStore1).1 1
     (by decide)⟩

theorem openEnvelope_ok_env (env : Envelope) (gossipKey : List Nat)
    (now : Int) (e : Envelope) (a : PeerAnnouncement)
    (h : OpenEnvelope env gossipKey now = Except.ok (e, a)) :
    e = env ∧ a = env.ciphertext.plaintext := by
  unfold OpenEnvelope at h
  split_ifs at h
  injection h with h2
  exact ⟨(congrArg Prod.fst h2).symm, (congrArg Prod.snd h2).symm⟩

/-- C8 counterexample: a valid sealed ANNOUNCE envelope (correct key,
protocol and fresh timestamp, as the first conjunct shows) is handed to
handleMessage, yet the peer store is left unchanged (the empty store stays
empty, so the sender is not merged); no response is sent.  The claimed
merge does not happen. -/
theorem handleMessage_announce_counterexample :
    OpenEnvelope announceEnvelope sampleKey 100 =
      Except.ok (announceEnvelope, senderAnnouncement) ∧
    handleMessage localNode0 [] sampleKey announceEnvelope
      (some "9.9.9.9") false 100 = ([], false) := by
  constructor
  · rfl
  · rfl

/-- C8 amended: an envelope whose message type is ANNOUNCE falls into the
default branch of handleMessage: the peer store is left unchanged and no
response is sent to the sender, whether or not the envelope decrypts. -/
theorem handleMessage_announce_dropped (localNode : LocalNode)
    (ps : PeerStore) (gossipKey : List Nat) (env : Envelope)
    (senderIP : Option String) (hasPending : Bool) (now : Int)
    (h : env.messageType = MessageTypeAnnounce) :
    handleMessage localNode ps gossipKey env senderIP hasPending now =
      (ps, false) := by
  unfold handleMessage
  rcases hE : OpenEnvelope env gossipKey now with msg | pr
  · rfl
  · obtain ⟨e, a⟩ := pr
    obtain ⟨he, -⟩ := openEnvelope_ok_env env gossipKey now e a hE
    subst he
    simp [h, MessageTypeAnnounce, MessageTypeHello, MessageTypeReply]

/-- C8 witness: the amended theorem applied to the concrete ANNOUNCE
envelope over a non-empty store. -/
theorem handleMessage_announce_dropped_witness :
    handleMessage localNode0 [stalePeer] sampleKey announceEnvelope
      (some "9.9.9.9") false 100 = ([stalePeer], false) :=
  handleMessage_announce_dropped localNode0 [stalePeer] sampleKey
    announceEnvelope (some "9.9.9.9") false 100 rfl

theorem lastColonIdx_of_not_mem (cs : List Char) (h : ':' ∉ cs) :
    lastColonIdx cs = none := by
  induction cs with
  | nil => rfl
  | cons c rest ih =>
    have hc : c ≠ ':' := fun hch => h (hch ▸ List.mem_cons_self c rest)
    have hrest : ':' ∉ rest := fun hm => h (List.mem_cons_of_mem c hm)
    simp [lastColonIdx, ih hrest, hc]

theorem lastColonIdx_append (as bs : List Char) (hbs : ':' ∉ bs) :
    lastColonIdx (as ++ ':' :: bs) = some as.length := by
  induction as with
  | nil => simp [lastColonIdx, lastColonIdx_of_not_mem bs hbs]
  | cons a as ih => simp [lastColonIdx, ih]

theorem splitHostPort_plain (hostcs portcs : List Char)
    (h1 : ':' ∉ hostcs) (h2 : '[' ∉ hostcs) (h3 : ']' ∉ hostcs)
    (hport : ':' ∉ portcs) :
    splitHostPort (String.mk (hostcs ++ ':' :: portcs)) =
      some (String.mk hostcs, String.mk portcs) := by
  have hc1 : hostcs.contains ':' = false := by simpa using h1
  have hc2 : hostcs.contains '[' = false := by simpa using h2
  have hc3 : hostcs.contains ']' = false := by simpa using h3
  have hhead : hostcs.head? ≠ some '[' := by
    cases hostcs with
    | nil => simp
    | cons c t =>
      have : c ≠ '[' := fun hch => h2 (hch ▸ List.mem_cons_self c t)
      simpa using this
  simp [splitHostPort, lastColonIdx_append hostcs portcs hport, hhead,
    hc1, hc2, hc3, h1, h2, h3]

theorem joinHostPort_plain (host port : String) (h1 : ':' ∉ host.data)
    (h2 : '%' ∉ host.data) :
    joinHostPort host port = host ++ ":" ++ port := by
  simp [joinHostPort, h1, h2]

theorem resolvePeerEndpoint_wildcard (adv host port x : String)
    (hsplit : splitHostPort adv = some (host, port))
    (hwild : host = "" ∨ host = "0.0.0.0" ∨ host = "::") (hx : x ≠ "") :
    resolvePeerEndpoint adv (some x) = joinHostPort x port := by
  unfold resolvePeerEndpoint
  rw [hsplit]
  rcases hwild with rfl | rfl | rfl <;> simp [hx]

theorem resolveEndpoint_wildcard (adv host port x : String)
    (hsplit : splitHostPort adv = some (host, port))
    (hwild : host = "" ∨ host = "0.0.0.0" ∨ host = "::") :
    resolveEndpoint adv (some x) = joinHostPort x port := by
  unfold resolveEndpoint
  rw [hsplit]
  rcases hwild with rfl | rfl | rfl <;> simp

theorem resolvePeerEndpoint_concrete (adv host port x : String)
    (hsplit : splitHostPort adv = some (host, port))
    (hwild : ¬ (host = "" ∨ host = "0.0.0.0" ∨ host = "::")) :
    resolvePeerEndpoint adv (some x) = joinHostPort host port := by
  unfold resolvePeerEndpoint
  rw [hsplit]
  have hne : host ≠ "" := fun hh => hwild (Or.inl hh)
  have hb : host ≠ "0.0.0.0" := fun hh => hwild (Or.inr (Or.inl hh))
  have hc : host ≠ "::" := fun hh => hwild (Or.inr (Or.inr hh))
  simp [hne, hb, hc]

theorem resolveEndpoint_concrete (adv host port x : String)
    (hsplit : splitHostPort adv = some (host, port))
    (hwild : ¬ (host = "" ∨ host = "0.0.0.0" ∨ host = "::")) :
    resolveEndpoint adv (some x) = adv := by
  unfold resolveEndpoint
  rw [hsplit]
  simp [hwild]

/-- C6: endpoint reflection.  An announcement advertising a wildcard host
("0.0.0.0", empty, or "::") with port P, received from source IP X, is
resolved to endpoint "X:P": the host is rewritten to the observed source
while the advertised port is preserved; an announcement with a concrete
non-wildcard host is resolved unchanged.  Both the peer-exchange resolver
and the LAN resolver are covered. -/
theorem endpoint_reflection (p x h : String)
    (hp : ':' ∉ p.data)
    (hx1 : ':' ∉ x.data) (hx2 : '%' ∉ x.data) (hxne : x ≠ "")
    (hh1 : ':' ∉ h.data) (hh2 : '[' ∉ h.data) (hh3 : ']' ∉ h.data)
    (hh4 : '%' ∉ h.data) (hhne : h ≠ "") (hh0 : h ≠ "0.0.0.0") :
    resolvePeerEndpoint ("0.0.0.0:" ++ p) (some x) = x ++ ":" ++ p ∧
    resolveEndpoint ("0.0.0.0:" ++ p) (some x) = x ++ ":" ++ p ∧
    resolvePeerEndpoint (":" ++ p) (some x) = x ++ ":" ++ p ∧
    resolveEndpoint (":" ++ p) (some x) = x ++ ":" ++ p ∧
    resolvePeerEndpoint ("[::]:" ++ p) (some x) = x ++ ":" ++ p ∧
    resolveEndpoint ("[::]:" ++ p) (some x) = x ++ ":" ++ p ∧
    resolvePeerEndpoint (h ++ ":" ++ p) (some x) = h ++ ":" ++ p ∧
    resolveEndpoint (h ++ ":" ++ p) (some x) = h ++ ":" ++ p := by
  have e1 : ("0.0.0.0:" ++ p) =
      String.mk (['0', '.', '0', '.', '0', '.', '0'] ++ ':' :: p.data) := by
    cases p; rfl
  have s1 : splitHostPort ("0.0.0.0:" ++ p) =
      some ("0.0.0.0", String.mk p.data) := by
    rw [e1, splitHostPort_plain _ _ (by decide) (by decide) (by decide) hp]
  have e2 : (":" ++ p) = String.mk ([] ++ ':' :: p.data) := by
    cases p; rfl
  have s2 : splitHostPort (":" ++ p) = some ("", String.mk p.data) := by
    rw [e2, splitHostPort_plain _ _ (by decide) (by decide) (by decide) hp]
  have e3 : ("[::]:" ++ p) =
      String.mk (['[', ':', ':', ']'] ++ ':' :: p.data) := by
    cases p; rfl
  have s3 : splitHostPort ("[::]:" ++ p) =
      some ("::", String.mk p.data) := by
    rw [e3]
    unfold splitHostPort
    rw [show (String.mk (['[', ':', ':', ']'] ++ ':' :: p.data)).data =
        ['[', ':', ':', ']'] ++ ':' :: p.data from rfl,
      lastColonIdx_append ['[', ':', ':', ']'] p.data hp]
    simp
  have e4 : (h ++ ":" ++ p) = String.mk (h.data ++ ':' :: p.data) := by
    cases h; cases p
    show String.mk _ = _
    simp
  have s4 : splitHostPort (h ++ ":" ++ p) =
      some (h, String.mk p.data) := by
    rw [e4, splitHostPort_plain h.data p.data hh1 hh2 hh3 hp]
  have hwild4 : ¬ (h = "" ∨ h = "0.0.0.0" ∨ h = "::") := by
    rintro (h5 | h5 | h5)
    · exact hhne h5
    · exact hh0 h5
    · rw [h5] at hh1
      exact hh1 (by decide)
  have hjoin : joinHostPort x (String.mk p.data) = x ++ ":" ++ p :=
    joinHostPort_plain x p hx1 hx2
  refine ⟨?_, ?_, ?_, ?_, ?_, ?_, ?_, ?_⟩
  · exact (resolvePeerEndpoint_wildcard _ _ _ x s1
      (Or.inr (Or.inl rfl)) hxne).trans hjoin
  · exact (resolveEndpoint_wildcard _ _ _ x s1
      (Or.inr (Or.inl rfl))).trans hjoin
  · exact (resolvePeerEndpoint_wildcard _ _ _ x s2
      (Or.inl rfl) hxne).trans hjoin
  · exact (resolveEndpoint_wildcard _ _ _ x s2 (Or.inl rfl)).trans hjoin
  · exact (resolvePeerEndpoint_wildcard _ _ _ x s3
      (Or.inr (Or.inr rfl)) hxne).trans hjoin
  · exact (resolveEndpoint_wildcard _ _ _ x s3
      (Or.inr (Or.inr rfl))).trans hjoin
  · exact (resolvePeerEndpoint_concrete _ _ _ x s4 hwild4).trans
      (joinHostPort_plain h p hh1 hh4)
  · exact resolveEndpoint_concrete _ _ _ x s4 hwild4

/-- C6 witness: the reflection at concrete port 51820, source IP 9.9.9.9
and concrete host 1.2.3.4. -/
theorem endpoint_reflection_witness :
    resolvePeerEndpoint ("0.0.0.0:" ++ "51820") (some "9.9.9.9") =
      "9.9.9.9" ++ ":" ++ "51820" ∧
    resolveEndpoint ("0.0.0.0:" ++ "51820") (some "9.9.9.9") =
      "9.9.9.9" ++ ":" ++ "51820" ∧
    resolvePeerEndpoint (":" ++ "51820") (some "9.9.9.9") =
      "9.9.9.9" ++ ":" ++ "51820" ∧
    resolveEndpoint (":" ++ "51820") (some "9.9.9.9") =
      "9.9.9.9" ++ ":" ++ "51820" ∧
    resolvePeerEndpoint ("[::]:" ++ "51820") (some "9.9.9.9") =
      "9.9.9.9" ++ ":" ++ "51820" ∧
    resolveEndpoint ("[::]:" ++ "51820") (some "9.9.9.9") =
      "9.9.9.9" ++ ":" ++ "51820" ∧
    resolvePeerEndpoint ("1.2.3.4" ++ ":" ++ "51820") (some "9.9.9.9") =
      "1.2.3.4" ++ ":" ++ "51820" ∧
    resolveEndpoint ("1.2.3.4" ++ ":" ++ "51820") (some "9.9.9.9") =
      "1.2.3.4" ++ ":" ++ "51820" :=
  endpoint_reflection "51820" "9.9.9.9" "1.2.3.4" (by decide) (by decide)
    (by decide) (by decide) (by decide) (by decide) (by decide)
    (by decide) (by decide) (by decide)

theorem toFinset_addTag (l : List String) (m : String) :
    (if l.contains m then l else l ++ [m]).toFinset =
      insert m l.toFinset := by
  by_cases h : l.contains m
  · rw [if_pos h]
    have hm : m ∈ l.toFinset := List.mem_toFinset.mpr (by simpa using h)
    exact (Finset.insert_eq_self.mpr hm).symm
  · rw [if_neg h]
    ext a
    simp [or_comm]

theorem mergePeer_wgPubKey (p info : PeerInfo) (m : String) (now : Int) :
    (mergePeer p info m now).wgPubKey = p.wgPubKey := rfl

theorem peerFields_parts {p q : PeerInfo}
    (h : peerFields p = peerFields q) :
    p.wgPubKey = q.wgPubKey ∧ p.meshIP = q.meshIP ∧
    p.endpoint = q.endpoint ∧ p.routableNetworks = q.routableNetworks ∧
    p.lastSeen = q.lastSeen := by
  simpa [peerFields, Prod.ext_iff] using h

theorem mergePeer_fields_congr {p q : PeerInfo} (info : PeerInfo)
    (m : String) (now : Int) (h : peerFields p = peerFields q) :
    peerFields (mergePeer p info m now) =
      peerFields (mergePeer q info m now) := by
  obtain ⟨h1, h2, h3, h4, h5⟩ := peerFields_parts h
  simp [mergePeer, peerFields, h1, h2, h3, h4]

theorem mergePeer_tags (p info : PeerInfo) (m : String) (now : Int) :
    (mergePeer p info m now).discoveredVia.toFinset =
      insert m p.discoveredVia.toFinset := by
  show (if p.discoveredVia.contains m then p.discoveredVia
    else p.discoveredVia ++ [m]).toFinset = insert m p.discoveredVia.toFinset
  exact toFinset_addTag p.discoveredVia m

theorem mergePeer_tags_congr {p q : PeerInfo} (info : PeerInfo)
    (m : String) (now : Int)
    (h : p.discoveredVia.toFinset = q.discoveredVia.toFinset) :
    (mergePeer p info m now).discoveredVia.toFinset =
      (mergePeer q info m now).discoveredVia.toFinset := by
  rw [mergePeer_tags, mergePeer_tags, h]

theorem mergePeer_comm_fields (p info : PeerInfo) (m1 m2 : String)
    (now : Int) :
    peerFields (mergePeer (mergePeer p info m1 now) info m2 now) =
      peerFields (mergePeer (mergePeer p info m2 now) info m1 now) := by
  simp only [mergePeer, peerFields]

theorem mergePeer_comm_tags (p info : PeerInfo) (m1 m2 : String)
    (now : Int) :
    (mergePeer (mergePeer p info m1 now) info m2
        now).discoveredVia.toFinset =
      (mergePeer (mergePeer p info m2 now) info m1
        now).discoveredVia.toFinset := by
  rw [mergePeer_tags, mergePeer_tags, mergePeer_tags, mergePeer_tags]
  ext a
  simp only [Finset.mem_insert]
  tauto


theorem map_store_congr (f g : PeerInfo → PeerInfo)
    (hfg : ∀ p q : PeerInfo, peerFields p = peerFields q →
      p.discoveredVia.toFinset = q.discoveredVia.toFinset →
      peerFields (f p) = peerFields (g q) ∧
      (f p).discoveredVia.toFinset = (g q).discoveredVia.toFinset) :
    ∀ s1 s2 : PeerStore, storeFields s1 = storeFields s2 →
      storeTagSets s1 = storeTagSets s2 →
      storeFields (s1.map f) = storeFields (s2.map g) ∧
      storeTagSets (s1.map f) = storeTagSets (s2.map g) := by
  intro s1
  induction s1 with
  | nil =>
    intro s2 hf ht
    cases s2 with
    | nil => exact ⟨rfl, rfl⟩
    | cons q t2 => simp [storeFields] at hf
  | cons p t ih =>
    intro s2 hf ht
    cases s2 with
    | nil => simp [storeFields] at hf
    | cons q t2 =>
      simp only [storeFields, storeTagSets, List.map_cons,
        List.cons.injEq] at hf ht ⊢
      obtain ⟨hf1, hf2⟩ := hf
      obtain ⟨ht1, ht2⟩ := ht
      obtain ⟨he1, he2⟩ := hfg p q hf1 ht1
      obtain ⟨hr1, hr2⟩ := ih t2 hf2 ht2
      exact ⟨⟨he1, hr1⟩, ⟨he2, hr2⟩⟩

theorem keys_eq_of_fields {s1 s2 : PeerStore}
    (h : storeFields s1 = storeFields s2) :
    s1.map (fun p => p.wgPubKey) = s2.map (fun p => p.wgPubKey) := by
  have h2 := congrArg (List.map Prod.fst) h
  simpa [storeFields, List.map_map, Function.comp, peerFields] using h2

theorem any_key_eq {s1 s2 : PeerStore}
    (h : storeFields s1 = storeFields s2) (k : String) :
    s1.any (fun p => p.wgPubKey == k) = s2.any (fun p => p.wgPubKey == k)
    := by
  have hmap : ∀ s : PeerStore, s.any (fun p => p.wgPubKey == k) =
      (s.map (fun p => p.wgPubKey)).any (fun x => x == k) := by
    intro s
    induction s with
    | nil => rfl
    | cons p t ih => simp [ih]
  rw [hmap s1, hmap s2, keys_eq_of_fields h]

theorem Update_congr (info : PeerInfo) (m : String) (now : Int)
    {s1 s2 : PeerStore} (hf : storeFields s1 = storeFields s2)
    (ht : storeTagSets s1 = storeTagSets s2) :
    storeFields (Update s1 info m now) =
      storeFields (Update s2 info m now) ∧
    storeTagSets (Update s1 info m now) =
      storeTagSets (Update s2 info m now) := by
  have hany := any_key_eq hf info.wgPubKey
  unfold Update
  by_cases h : s1.any (fun p => p.wgPubKey == info.wgPubKey) = true
  · rw [if_pos h, if_pos (hany ▸ h)]
    refine map_store_congr _ _ ?_ s1 s2 hf ht
    intro p q hpq htq
    by_cases hk : p.wgPubKey = info.wgPubKey
    · have hkq : q.wgPubKey = info.wgPubKey :=
        (peerFields_parts hpq).1 ▸ hk
      rw [if_pos hk, if_pos hkq]
      exact ⟨mergePeer_fields_congr info m now hpq,
        mergePeer_tags_congr info m now htq⟩
    · have hkq : ¬ q.wgPubKey = info.wgPubKey :=
        (peerFields_parts hpq).1 ▸ hk
      rw [if_neg hk, if_neg hkq]
      exact ⟨hpq, htq⟩
  · rw [if_neg h, if_neg (hany ▸ h)]
    constructor
    · simp only [storeFields] at hf
      simp only [storeFields, List.map_append, hf]
    · simp only [storeTagSets] at ht
      simp only [storeTagSets, List.map_append, ht]

theorem map_update_id (info : PeerInfo) (m : String) (now : Int) :
    ∀ s : PeerStore, (∀ p ∈ s, p.wgPubKey ≠ info.wgPubKey) →
      s.map (fun p => if p.wgPubKey = info.wgPubKey then
        mergePeer p info m now else p) = s := by
  intro s
  induction s with
  | nil => intro _; rfl
  | cons p t ih =>
    intro hnone
    rw [List.map_cons, if_neg (hnone p (List.mem_cons_self p t)),
      ih (fun q hq => hnone q (List.mem_cons_of_mem p hq))]

theorem Update_swap (info : PeerInfo) (m1 m2 : String) (now : Int)
    (s : PeerStore) :
    storeFields (Update (Update s info m1 now) info m2 now) =
      storeFields (Update (Update s info m2 now) info m1 now) ∧
    storeTagSets (Update (Update s info m1 now) info m2 now) =
      storeTagSets (Update (Update s info m2 now) info m1 now) := by
  by_cases h : s.any (fun p => p.wgPubKey == info.wgPubKey) = true
  · have hany2 : ∀ m : String,
        (s.map (fun p => if p.wgPubKey = info.wgPubKey then
          mergePeer p info m now else p)).any
          (fun p => p.wgPubKey == info.wgPubKey) = true := by
      intro m
      rcases List.any_eq_true.mp h with ⟨p, hp, hpk⟩
      refine List.any_eq_true.mpr ⟨_, List.mem_map_of_mem _ hp, ?_⟩
      by_cases hk : p.wgPubKey = info.wgPubKey
      · rw [if_pos hk]
        simp [mergePeer_wgPubKey, hk]
      · rw [if_neg hk]
        exact hpk
    unfold Update
    rw [if_pos h, if_pos h, if_pos (hany2 m1), if_pos (hany2 m2),
      List.map_map, List.map_map]
    refine map_store_congr _ _ ?_ s s rfl rfl
    intro p q hpq htq
    simp only [Function.comp]
    by_cases hk : p.wgPubKey = info.wgPubKey
    · have hkq : q.wgPubKey = info.wgPubKey :=
        (peerFields_parts hpq).1 ▸ hk
      rw [if_pos hk, if_pos hkq,
        if_pos (show (mergePeer p info m1 now).wgPubKey =
          info.wgPubKey from (mergePeer_wgPubKey p info m1 now).trans hk),
        if_pos (show (mergePeer q info m2 now).wgPubKey =
          info.wgPubKey from (mergePeer_wgPubKey q info m2 now).trans hkq)]
      constructor
      · exact (mergePeer_comm_fields p info m1 m2 now).trans
          (mergePeer_fields_congr info m1 now
            (mergePeer_fields_congr info m2 now hpq))
      · exact (mergePeer_comm_tags p info m1 m2 now).trans
          (mergePeer_tags_congr info m1 now
            (mergePeer_tags_congr info m2 now htq))
    · have hkq : ¬ q.wgPubKey = info.wgPubKey :=
        (peerFields_parts hpq).1 ▸ hk
      rw [if_neg hk, if_neg hkq, if_neg hk, if_neg hkq]
      exact ⟨hpq, htq⟩
  · have hnone : ∀ p ∈ s, p.wgPubKey ≠ info.wgPubKey := by
      intro p hp hk
      exact h (List.any_eq_true.mpr ⟨p, hp, by simp [hk]⟩)
    have hin : ∀ m : String,
        (s ++ [freshEntry info m now]).any
          (fun p => p.wgPubKey == info.wgPubKey) = true := by
      intro m
      exact List.any_eq_true.mpr
        ⟨_, List.mem_append_right _ (List.mem_singleton_self _),
          by simp [freshEntry]⟩
    have hsmap : ∀ m : String,
        s.map (fun p => if p.wgPubKey = info.wgPubKey then
          mergePeer p info m now else p) = s :=
      fun m => map_update_id info m now s hnone
    have he : ∀ mA mB : String,
        (if (freshEntry info mA now).wgPubKey = info.wgPubKey then
          mergePeer (freshEntry info mA now) info mB now
        else freshEntry info mA now) =
          mergePeer (freshEntry info mA now) info mB now :=
      fun mA mB => if_pos rfl
    unfold Update
    rw [if_neg h, if_neg h, if_pos (hin m1), if_pos (hin m2),
      List.map_append, List.map_append, hsmap m1, hsmap m2,
      List.map_cons, List.map_cons, List.map_nil, List.map_nil,
      he m1 m2, he m2 m1]
    constructor
    · simp only [storeFields, List.map_append, List.map_cons, List.map_nil]
      rw [show peerFields (mergePeer (freshEntry info m1 now)
          info m2 now) = peerFields (mergePeer (freshEntry info m2 now)
          info m1 now) from by
        simp only [mergePeer, peerFields, freshEntry]]
    · simp only [storeTagSets, List.map_append, List.map_cons,
        List.map_nil]
      rw [show (mergePeer (freshEntry info m1 now)
          info m2 now).discoveredVia.toFinset =
          (mergePeer (freshEntry info m2 now)
          info m1 now).discoveredVia.toFinset from by
        rw [mergePeer_tags, mergePeer_tags]
        show insert m2 ([m1] : List String).toFinset =
          insert m1 ([m2] : List String).toFinset
        ext a
        simp only [Finset.mem_insert, List.mem_toFinset, List.mem_cons,
          List.not_mem_nil, or_false]
        tauto]

theorem updateMany_congr (info : PeerInfo) (now : Int) :
    ∀ (ms : List String) {s1 s2 : PeerStore},
      storeFields s1 = storeFields s2 →
      storeTagSets s1 = storeTagSets s2 →
      storeFields (updateMany s1 info ms now) =
        storeFields (updateMany s2 info ms now) ∧
      storeTagSets (updateMany s1 info ms now) =
        storeTagSets (updateMany s2 info ms now) := by
  intro ms
  induction ms with
  | nil =>
    intro s1 s2 hf ht
    exact ⟨hf, ht⟩
  | cons m rest ih =>
    intro s1 s2 hf ht
    obtain ⟨hf2, ht2⟩ := Update_congr info m now hf ht
    simpa only [updateMany, List.foldl_cons] using ih hf2 ht2

theorem updateMany_perm (info : PeerInfo) (now : Int)
    {ms ms' : List String} (hperm : ms.Perm ms') :
    ∀ s : PeerStore,
      storeFields (updateMany s info ms now) =
        storeFields (updateMany s info ms' now) ∧
      storeTagSets (updateMany s info ms now) =
        storeTagSets (updateMany s info ms' now) := by
  induction hperm with
  | nil =>
    intro s
    exact ⟨rfl, rfl⟩
  | cons x h12 ih =>
    intro s
    simpa only [updateMany, List.foldl_cons] using ih (Update s info x now)
  | swap x y l =>
    intro s
    simp only [updateMany, List.foldl_cons]
    obtain ⟨hf, ht⟩ := Update_swap info y x now s
    simpa only [updateMany] using updateMany_congr info now l hf ht
  | trans h1 h2 ih1 ih2 =>
    intro s
    exact ⟨(ih1 s).1.trans (ih2 s).1, (ih1 s).2.trans (ih2 s).2⟩

/-- C3: PeerStore.Update is insert-or-merge keyed by wg_pubkey: a peer with
an unknown key is appended with last_seen set to now and the method as its
single tag; for an existing entry with the same key, each non-empty
incoming mutable field (endpoint, mesh_ip, routable_networks) replaces the
old value, last_seen is set to now, and the tag set becomes the
duplicate-free union; consequently, for a fixed clock, folding Update over
any permutation of a method list with the same PeerInfo yields the same
store modulo the set-union of discovery tags. -/
theorem update_merge_rule_and_order_invariance (ps : PeerStore)
    (info : PeerInfo) (m : String) (now : Int) (ms msp : List String)
    (hperm : ms.Perm msp) :
    (ps.any (fun p => p.wgPubKey == info.wgPubKey) = false →
      Update ps info m now = ps ++ [freshEntry info m now]) ∧
    (∀ p ∈ ps, p.wgPubKey = info.wgPubKey →
      ∃ q ∈ Update ps info m now,
        q.wgPubKey = p.wgPubKey ∧
        q.endpoint = (if info.endpoint = "" then p.endpoint
          else info.endpoint) ∧
        q.meshIP = (if info.meshIP = "" then p.meshIP else info.meshIP) ∧
        q.routableNetworks = (if info.routableNetworks = []
          then p.routableNetworks else info.routableNetworks) ∧
        q.lastSeen = now ∧
        q.discoveredVia.toFinset = insert m p.discoveredVia.toFinset) ∧
    (storeFields (updateMany ps info ms now) =
      storeFields (updateMany ps info msp now) ∧
     storeTagSets (updateMany ps info ms now) =
      storeTagSets (updateMany ps info msp now)) := by
  refine ⟨?_, ?_, updateMany_perm info now hperm ps⟩
  · intro hany
    unfold Update
    rw [if_neg (by simp [hany])]
  · intro p hp hkey
    have hanyT : ps.any (fun x => x.wgPubKey == info.wgPubKey) = true :=
      List.any_eq_true.mpr ⟨p, hp, by simp [hkey]⟩
    refine ⟨mergePeer p info m now, ?_, rfl, ?_, ?_, ?_, rfl,
      mergePeer_tags p info m now⟩
    · unfold Update
      rw [if_pos hanyT]
      exact List.mem_map.mpr ⟨p, hp, by rw [if_pos hkey]⟩
    · by_cases he : info.endpoint = "" <;> simp [mergePeer, he]
    · by_cases hmi : info.meshIP = "" <;> simp [mergePeer, hmi]
    · by_cases hr : info.routableNetworks = [] <;>
        simp [mergePeer, hr, List.length_pos]

/-- C3 witness: insertion into the empty store, the merge rule at a
concrete existing entry (the empty incoming endpoint keeps the old one, the
non-empty incoming mesh IP wins, the tag set unions), and order invariance
for the method lists [lan, dht] and [dht, lan]. -/
theorem update_merge_rule_witness :
    (Update [] infoW "lan" 50 = [] ++ [freshEntry infoW "lan" 50]) ∧
    (∃ q ∈ Update [entryW] infoW "dht" 50,
      q.wgPubKey = entryW.wgPubKey ∧
      q.endpoint = (if infoW.endpoint = "" then entryW.endpoint
        else infoW.endpoint) ∧
      q.meshIP = (if infoW.meshIP = "" then entryW.meshIP
        else infoW.meshIP) ∧
      q.routableNetworks = (if infoW.routableNetworks = []
        then entryW.routableNetworks else infoW.routableNetworks) ∧
      q.lastSeen = 50 ∧
      q.discoveredVia.toFinset = insert "dht" entryW.discoveredVia.toFinset)
      ∧
    storeFields (updateMany [entryW] infoW ["lan", "dht"] 50) =
      storeFields (updateMany [entryW] infoW ["dht", "lan"] 50) :=
  ⟨(update_merge_rule_and_order_invariance [] infoW "lan" 50 [] []
      (List.Perm.refl [])).1 rfl,
   (update_merge_rule_and_order_invariance [entryW] infoW "dht" 50 [] []
      (List.Perm.refl [])).2.1 entryW (by simp) rfl,
   ((update_merge_rule_and_order_invariance [entryW] infoW "lan" 50
      ["lan", "dht"] ["dht", "lan"]
      (List.Perm.swap "dht" "lan" [])).2.2).1⟩

end Wgmesh
